import Mathlib

/-
Shallow embedding of the compile-time set library in src/set.hpp.
A set or bag type `set<I, is...>` / `bag<I, is...>` is represented by its
parameter pack `is...`, i.e. a `List I`; every member alias or constexpr
member function becomes a Lean function on such lists, translated clause by
clause from the two template specialisations (empty pack / `i, is...`).
-/

namespace SetArith

variable {I : Type} [LinearOrder I]

/- `type_traits::contains<I, is...>(j)` -/
def contains : List I → I → Bool
  | [], _ => false
  | i :: is, j => decide (i = j) || contains is j

/- `type_traits::is_set<I, is...>()` -/
def is_set : List I → Bool
  | [] => true
  | i :: is => !contains is i && is_set is

/- `type_traits::is_everse_list<I, is...>()` -/
def is_everse_list : List I → Bool
  | [] => true
  | [_] => true
  | i :: j :: ks => decide (i ≤ j) && is_everse_list (j :: ks)

/- `type_traits::is_inverse_list<I, is...>()` -/
def is_inverse_list : List I → Bool
  | [] => true
  | [_] => true
  | i :: j :: ks => decide (i ≥ j) && is_inverse_list (j :: ks)

/- `type_traits::is_list<I, is...>()` -/
def is_list (l : List I) : Bool :=
  is_everse_list l || is_inverse_list l

/- `set::prepend<j>`: empty case gives `set<I, j>`; non-empty case conses
`j` unless it is already contained.  Since `contains [] j = false` the two
specialisations collapse into one conditional. -/
def prepend (l : List I) (j : I) : List I :=
  if contains l j then l else j :: l

/- `set::append<j>` -/
def append (l : List I) (j : I) : List I :=
  if contains l j then l else l ++ [j]

/- `set::union_t<js...>`: empty case returns `set<I, js...>`; non-empty case
is `set<I, is...>::union_t<js...>::prepend<i>`. -/
def union_t : List I → List I → List I
  | [], js => js
  | i :: is, js => prepend (union_t is js) i

/- `set::subtract<j>`: empty case returns the empty set; non-empty case is
`set<I, is...>` when `i == j`, else `set<I, is...>::subtract<j>::prepend<i>`. -/
def subtract : List I → I → List I
  | [], _ => []
  | i :: is, j => if i = j then is else prepend (subtract is j) i

theorem length_prepend_le (l : List I) (j : I) :
    (prepend l j).length ≤ l.length + 1 := by
  unfold prepend
  split
  · exact Nat.le_succ _
  · simp

theorem length_subtract_le (l : List I) (j : I) :
    (subtract l j).length ≤ l.length := by
  induction l with
  | nil => simp [subtract]
  | cons i is ih =>
    unfold subtract
    split
    · simp
    · calc (prepend (subtract is j) i).length ≤ (subtract is j).length + 1 :=
            length_prepend_le _ _
        _ ≤ is.length + 1 := Nat.succ_le_succ ih
        _ = (i :: is).length := by simp

/- `set::difference<js...>`: the difference of the empty set is `set<I, js...>`;
the difference of a non-empty set is
`set<I, js...>::subtract<i>::difference<is...>`, i.e. the member `difference`
of the set `subtract js i` applied to the pack `is`. -/
def difference : List I → List I → List I
  | [], js => js
  | i :: is, js => difference (subtract js i) is
termination_by l js => l.length + js.length
decreasing_by
  have h := length_subtract_le js i
  simp only [List.length_cons]
  omega

/- `operator -`: the overload of the empty set returns its operand unchanged;
the non-empty overload on `A = set<I, i, is...>` applied to `B = set<I, js...>`
returns `set<I, js...>::difference<i, is...>`. -/
def operator_minus (a b : List I) : List I :=
  match a with
  | [] => b
  | _ :: _ => difference b a

/- `set::intersection<js...>` -/
def intersection : List I → List I → List I
  | [], _ => []
  | i :: is, js =>
      if contains js i then prepend (intersection is js) i
      else intersection is js

/- `set::smaller_than<supremum>` -/
def smaller_than : List I → I → List I
  | [], _ => []
  | i :: is, s =>
      if i < s then prepend (smaller_than is s) i
      else smaller_than is s

/- `set::larger_than<infimum>` -/
def larger_than : List I → I → List I
  | [], _ => []
  | i :: is, inf =>
      if inf < i then prepend (larger_than is inf) i
      else larger_than is inf

theorem length_smaller_than_le (l : List I) (s : I) :
    (smaller_than l s).length ≤ l.length := by
  induction l with
  | nil => simp [smaller_than]
  | cons i is ih =>
    unfold smaller_than
    split
    · calc (prepend (smaller_than is s) i).length
          ≤ (smaller_than is s).length + 1 := length_prepend_le _ _
        _ ≤ is.length + 1 := Nat.succ_le_succ ih
        _ = (i :: is).length := by simp
    · exact le_trans ih (by simp)

theorem length_larger_than_le (l : List I) (inf : I) :
    (larger_than l inf).length ≤ l.length := by
  induction l with
  | nil => simp [larger_than]
  | cons i is ih =>
    unfold larger_than
    split
    · calc (prepend (larger_than is inf) i).length
          ≤ (larger_than is inf).length + 1 := length_prepend_le _ _
        _ ≤ is.length + 1 := Nat.succ_le_succ ih
        _ = (i :: is).length := by simp
    · exact le_trans ih (by simp)

theorem smaller_than_cons_self (i : I) (is : List I) :
    smaller_than (i :: is) i = smaller_than is i := by
  simp [smaller_than]

theorem larger_than_cons_self (i : I) (is : List I) :
    larger_than (i :: is) i = larger_than is i := by
  simp [larger_than]

/- `set::quick_sort()`: the empty set sorts to itself; the non-empty set
`set<I, i, is...>` returns the union
of smaller_than of the pivot sorted, the singleton pivot set, and
larger_than of the pivot sorted,
where `+` is `union_t` and `smaller_than`/`larger_than` are members of the
whole set `i, is...`. -/
def quick_sort : List I → List I
  | [] => []
  | i :: is =>
      union_t (union_t (quick_sort (smaller_than (i :: is) i)) [i])
        (quick_sort (larger_than (i :: is) i))
termination_by l => l.length
decreasing_by
  · rw [smaller_than_cons_self]
    exact Nat.lt_succ_of_le (length_smaller_than_le _ _)
  · rw [larger_than_cons_self]
    exact Nat.lt_succ_of_le (length_larger_than_le _ _)

/- `set::subset_of<js...>()` -/
def subset_of : List I → List I → Bool
  | [], _ => true
  | i :: is, js => contains js i && subset_of is js

/- `set::equals<js...>()`: equals on the empty set is `0 == sizeof...(js)`;
equals on a non-empty set is mutual `subset_of`. -/
def equals (l js : List I) : Bool :=
  match l with
  | [] => decide (js.length = 0)
  | i :: is => subset_of (i :: is) js && subset_of js (i :: is)

/- The chain of `static_assert(!type_traits::contains<I, is...>(i), ...)`
checks accumulated along the inheritance chain
`set<I, i, is...> : protected set<I, is...>`.  (The companion
`static_assert(type_traits::is_set<I, i, is...>, ...)` names the function
template without calling it, so it degenerates to a non-null
function-pointer test and is always true; the per-level `!contains` assert
is what actually rejects duplicated packs.) -/
def set_constructible : List I → Bool
  | [] => true
  | i :: is => !contains is i && set_constructible is

/- `bag<I, is...>::set_t` / `to_set()`: the empty bag reduces to the empty
set; `bag<I, i, is...>::set_t` is `cdr_set` when `contains<I, is...>(i)`,
else `cdr_set::prepend<i>`. -/
def to_set : List I → List I
  | [] => []
  | i :: is => if contains is i then to_set is else prepend (to_set is) i

/- ## Helper lemmas -/

theorem is_set_cons (i : I) (is : List I) :
    is_set (i :: is) = (!contains is i && is_set is) := rfl

theorem is_set_cons_iff (i : I) (is : List I) :
    is_set (i :: is) = true ↔ contains is i = false ∧ is_set is = true := by
  rw [is_set_cons]
  simp [Bool.and_eq_true, Bool.not_eq_true']

theorem contains_append (l1 l2 : List I) (x : I) :
    contains (l1 ++ l2) x = (contains l1 x || contains l2 x) := by
  induction l1 with
  | nil => simp [contains]
  | cons i is ih => simp [contains, ih, Bool.or_assoc]

theorem contains_prepend (l : List I) (j x : I) :
    contains (prepend l j) x = (decide (j = x) || contains l x) := by
  unfold prepend
  by_cases h : contains l j = true
  · simp only [h, if_true]
    by_cases hx : j = x
    · subst hx
      simp [h]
    · simp [hx]
  · simp only [h, if_false, Bool.false_eq_true, contains]

theorem is_set_prepend (l : List I) (j : I) (h : is_set l = true) :
    is_set (prepend l j) = true := by
  unfold prepend
  by_cases hc : contains l j = true
  · simp [hc, h]
  · simp only [hc, if_false, Bool.false_eq_true]
    rw [is_set_cons_iff]
    exact ⟨Bool.not_eq_true _ ▸ hc, h⟩

theorem contains_union_t (a b : List I) (x : I) :
    contains (union_t a b) x = (contains a x || contains b x) := by
  induction a with
  | nil => simp [union_t, contains]
  | cons i is ih => simp [union_t, contains_prepend, ih, contains, Bool.or_assoc]

theorem is_set_union_t (a b : List I) (h : is_set b = true) :
    is_set (union_t a b) = true := by
  induction a with
  | nil => simpa [union_t] using h
  | cons i is ih => exact is_set_prepend _ _ ih

theorem contains_subtract (l : List I) (j x : I) (h : is_set l = true) :
    contains (subtract l j) x = (contains l x && !decide (j = x)) := by
  induction l with
  | nil => simp [subtract, contains]
  | cons i is ih =>
    obtain ⟨h1, h2⟩ := (is_set_cons_iff i is).mp h
    unfold subtract
    by_cases hij : i = j
    · subst hij
      simp only [if_pos rfl, contains]
      by_cases hx : i = x
      · subst hx
        simp [h1]
      · simp [hx]
    · rw [if_neg hij, contains_prepend, ih h2]
      simp only [contains]
      by_cases hjx : j = x
      · subst hjx
        simp [hij]
      · simp [hjx]

theorem is_set_subtract (l : List I) (j : I) (h : is_set l = true) :
    is_set (subtract l j) = true := by
  induction l with
  | nil => simpa [subtract] using h
  | cons i is ih =>
    obtain ⟨h1, h2⟩ := (is_set_cons_iff i is).mp h
    unfold subtract
    by_cases hij : i = j
    · simpa [hij] using h2
    · rw [if_neg hij]
      exact is_set_prepend _ _ (ih h2)

theorem is_set_difference (l js : List I) (hl : is_set l = true)
    (hjs : is_set js = true) : is_set (difference l js) = true := by
  induction l, js using difference.induct with
  | case1 js => simpa [difference] using hjs
  | case2 i is js ih =>
    obtain ⟨h1, h2⟩ := (is_set_cons_iff i is).mp hl
    rw [difference]
    exact ih (is_set_subtract _ _ hjs) h2

theorem is_set_intersection (a b : List I) (h : is_set a = true) :
    is_set (intersection a b) = true := by
  induction a with
  | nil => simp [intersection, is_set]
  | cons i is ih =>
    obtain ⟨h1, h2⟩ := (is_set_cons_iff i is).mp h
    unfold intersection
    by_cases hc : contains b i = true
    · rw [if_pos hc]
      exact is_set_prepend _ _ (ih h2)
    · rw [if_neg hc]
      exact ih h2

theorem contains_smaller_than (l : List I) (s x : I) :
    contains (smaller_than l s) x = (contains l x && decide (x < s)) := by
  induction l with
  | nil => simp [smaller_than, contains]
  | cons i is ih =>
    unfold smaller_than
    by_cases his : i < s
    · rw [if_pos his, contains_prepend, ih]
      simp only [contains]
      by_cases hix : i = x
      · subst hix
        simp [his]
      · simp [hix]
    · rw [if_neg his, ih]
      simp only [contains]
      by_cases hix : i = x
      · subst hix
        simp [his]
      · simp [hix]

theorem contains_larger_than (l : List I) (inf x : I) :
    contains (larger_than l inf) x = (contains l x && decide (inf < x)) := by
  induction l with
  | nil => simp [larger_than, contains]
  | cons i is ih =>
    unfold larger_than
    by_cases his : inf < i
    · rw [if_pos his, contains_prepend, ih]
      simp only [contains]
      by_cases hix : i = x
      · subst hix
        simp [his]
      · simp [hix]
    · rw [if_neg his, ih]
      simp only [contains]
      by_cases hix : i = x
      · subst hix
        simp [his]
      · simp [hix]

theorem is_set_smaller_than (l : List I) (s : I) (h : is_set l = true) :
    is_set (smaller_than l s) = true := by
  induction l with
  | nil => simpa [smaller_than] using h
  | cons i is ih =>
    obtain ⟨h1, h2⟩ := (is_set_cons_iff i is).mp h
    unfold smaller_than
    by_cases his : i < s
    · rw [if_pos his]
      exact is_set_prepend _ _ (ih h2)
    · rw [if_neg his]
      exact ih h2

theorem is_set_larger_than (l : List I) (inf : I) (h : is_set l = true) :
    is_set (larger_than l inf) = true := by
  induction l with
  | nil => simpa [larger_than] using h
  | cons i is ih =>
    obtain ⟨h1, h2⟩ := (is_set_cons_iff i is).mp h
    unfold larger_than
    by_cases his : inf < i
    · rw [if_pos his]
      exact is_set_prepend _ _ (ih h2)
    · rw [if_neg his]
      exact ih h2

theorem is_set_append_single (l : List I) (j : I) (h : is_set l = true)
    (hc : contains l j = false) : is_set (l ++ [j]) = true := by
  induction l with
  | nil => simp [is_set, contains]
  | cons a as ih =>
    obtain ⟨h1, h2⟩ := (is_set_cons_iff a as).mp h
    simp only [contains, Bool.or_eq_false_iff, decide_eq_false_iff_not] at hc
    rw [List.cons_append, is_set_cons_iff, contains_append]
    refine ⟨?_, ih h2 hc.2⟩
    have hja : ¬j = a := fun hja => hc.1 hja.symm
    simp [h1, contains, hja]

theorem is_set_append (l : List I) (j : I) (h : is_set l = true) :
    is_set (append l j) = true := by
  unfold append
  by_cases hc : contains l j = true
  · simpa [hc] using h
  · rw [if_neg hc]
    exact is_set_append_single l j h (Bool.not_eq_true _ ▸ hc)

theorem contains_cons (i : I) (is : List I) (x : I) :
    contains (i :: is) x = (decide (i = x) || contains is x) := rfl

theorem contains_filter (l : List I) (p : I → Bool) (x : I) :
    contains (List.filter p l) x = (contains l x && p x) := by
  induction l with
  | nil => simp [contains]
  | cons a as ih =>
    by_cases hp : p a = true
    · rw [List.filter_cons_of_pos hp]
      simp only [contains, ih]
      by_cases hax : a = x
      · subst hax
        simp [hp]
      · simp [hax]
    · rw [List.filter_cons_of_neg (by simpa using hp)]
      simp only [contains, ih]
      by_cases hax : a = x
      · subst hax
        simp [Bool.not_eq_true _ ▸ hp]
      · simp [hax]

theorem filter_eq_self_of (l : List I) (p : I → Bool)
    (h : ∀ x, contains l x = true → p x = true) : List.filter p l = l := by
  induction l with
  | nil => rfl
  | cons a as ih =>
    have ha : p a = true := h a (by simp [contains])
    rw [List.filter_cons_of_pos ha,
      ih fun x hx => h x (by simp [contains, hx])]

theorem union_t_eq_append (a b : List I) (h : is_set a = true) :
    union_t a b = List.filter (fun x => !contains b x) a ++ b := by
  induction a with
  | nil => simp [union_t]
  | cons i is ih =>
    obtain ⟨hni, hs⟩ := (is_set_cons_iff i is).mp h
    rw [union_t, ih hs]
    unfold prepend
    have hc : contains (List.filter (fun x => !contains b x) is ++ b) i
        = contains b i := by
      rw [contains_append, contains_filter, hni]
      simp
    by_cases hb : contains b i = true
    · rw [hc, if_pos hb, List.filter_cons_of_neg (by simp [hb])]
    · rw [hc, if_neg hb, List.filter_cons_of_pos (by simp [Bool.not_eq_true _ ▸ hb]),
        List.cons_append]

theorem is_everse_list_cons_of (i : I) (l : List I)
    (hb : ∀ y, contains l y = true → i ≤ y) (hl : is_everse_list l = true) :
    is_everse_list (i :: l) = true := by
  cases l with
  | nil => rfl
  | cons j ks =>
    have hij : i ≤ j := hb j (by simp [contains])
    simp only [is_everse_list, Bool.and_eq_true, decide_eq_true_eq]
    exact ⟨hij, hl⟩

theorem is_everse_list_append (l1 l2 : List I) (i : I)
    (h1 : is_everse_list l1 = true) (h2 : is_everse_list (i :: l2) = true)
    (hb : ∀ x, contains l1 x = true → x ≤ i) :
    is_everse_list (l1 ++ i :: l2) = true := by
  induction l1 with
  | nil => simpa using h2
  | cons a as ih =>
    cases as with
    | nil =>
      have hai : a ≤ i := hb a (by simp [contains])
      simp only [List.cons_append, List.nil_append, is_everse_list,
        Bool.and_eq_true, decide_eq_true_eq]
      exact ⟨hai, h2⟩
    | cons b bs =>
      simp only [is_everse_list, Bool.and_eq_true, decide_eq_true_eq] at h1
      have ihr := ih h1.2 fun x hx => hb x (by rw [contains_cons, hx, Bool.or_true])
      simp only [List.cons_append] at ihr ⊢
      simp only [is_everse_list, Bool.and_eq_true, decide_eq_true_eq]
      exact ⟨h1.1, ihr⟩

theorem subset_of_iff (l js : List I) :
    subset_of l js = true ↔ ∀ x, contains l x = true → contains js x = true := by
  induction l with
  | nil => simp [subset_of, contains]
  | cons i is ih =>
    simp only [subset_of, Bool.and_eq_true, ih]
    constructor
    · rintro ⟨hi, hs⟩ x hx
      simp only [contains, Bool.or_eq_true, decide_eq_true_eq] at hx
      rcases hx with hx | hx
      · exact hx ▸ hi
      · exact hs x hx
    · intro h
      exact ⟨h i (by simp [contains]), fun x hx => h x (by simp [contains, hx])⟩

theorem equals_of_contains_eq (l r : List I)
    (h : ∀ x, contains l x = contains r x) : equals l r = true := by
  cases l with
  | nil =>
    cases r with
    | nil => rfl
    | cons a as =>
      have ha := h a
      simp [contains] at ha
  | cons i is =>
    simp only [equals, Bool.and_eq_true, subset_of_iff]
    exact ⟨fun x hx => (h x) ▸ hx, fun x hx => (h x).symm ▸ hx⟩

theorem quick_sort_bundle (l : List I) (h : is_set l = true) :
    (∀ x, contains (quick_sort l) x = contains l x) ∧
      is_set (quick_sort l) = true ∧ is_everse_list (quick_sort l) = true := by
  induction l using quick_sort.induct with
  | case1 =>
    refine ⟨fun x => ?_, ?_, ?_⟩ <;> simp [quick_sort, contains, is_set, is_everse_list]
  | case2 i is ihS ihL =>
    have hS : is_set (smaller_than (i :: is) i) = true := is_set_smaller_than _ _ h
    have hL : is_set (larger_than (i :: is) i) = true := is_set_larger_than _ _ h
    obtain ⟨memS, setS, evS⟩ := ihS hS
    obtain ⟨memL, setL, evL⟩ := ihL hL
    have boundS : ∀ x,
        contains (quick_sort (smaller_than (i :: is) i)) x = true → x < i := by
      intro x hx
      rw [memS, contains_smaller_than] at hx
      simp only [Bool.and_eq_true, decide_eq_true_eq] at hx
      exact hx.2
    have boundL : ∀ x,
        contains (quick_sort (larger_than (i :: is) i)) x = true → i < x := by
      intro x hx
      rw [memL, contains_larger_than] at hx
      simp only [Bool.and_eq_true, decide_eq_true_eq] at hx
      exact hx.2
    have e1 : union_t (quick_sort (smaller_than (i :: is) i)) [i]
        = quick_sort (smaller_than (i :: is) i) ++ [i] := by
      rw [union_t_eq_append _ _ setS, filter_eq_self_of]
      intro x hx
      have hlt := boundS x hx
      have : ¬i = x := fun e => absurd hlt (e ▸ lt_irrefl i)
      simp [contains, this]
    have hiS : contains (quick_sort (smaller_than (i :: is) i)) i = false := by
      cases hc : contains (quick_sort (smaller_than (i :: is) i)) i with
      | false => rfl
      | true => exact absurd (boundS i hc) (lt_irrefl i)
    have setSi : is_set (quick_sort (smaller_than (i :: is) i) ++ [i]) = true :=
      is_set_append_single _ _ setS hiS
    have e2 : union_t (quick_sort (smaller_than (i :: is) i) ++ [i])
          (quick_sort (larger_than (i :: is) i))
        = (quick_sort (smaller_than (i :: is) i) ++ [i])
            ++ quick_sort (larger_than (i :: is) i) := by
      rw [union_t_eq_append _ _ setSi, filter_eq_self_of]
      intro x hx
      rw [contains_append] at hx
      have hnot : contains (quick_sort (larger_than (i :: is) i)) x = false := by
        rw [memL, contains_larger_than]
        simp only [Bool.or_eq_true] at hx
        rcases hx with hx1 | hx2
        · have := boundS x hx1
          simp [not_lt_of_gt this]
        · simp only [contains, Bool.or_false, decide_eq_true_eq] at hx2
          subst hx2
          simp [lt_irrefl]
      simp [hnot]
    have struct : quick_sort (i :: is)
        = quick_sort (smaller_than (i :: is) i)
            ++ i :: quick_sort (larger_than (i :: is) i) := by
      simp only [quick_sort]
      rw [e1, e2, List.append_assoc, List.singleton_append]
    refine ⟨?_, ?_, ?_⟩
    · intro x
      rw [struct, contains_append, contains_cons, memS, memL,
        contains_smaller_than, contains_larger_than, contains_cons]
      by_cases hix : i = x
      · subst hix
        simp [lt_irrefl]
      · have hd : decide (i = x) = false := by simp [hix]
        simp only [hd, Bool.false_or]
        by_cases hc : contains is x = true
        · have hxi : x ≠ i := fun e => hix e.symm
          rcases hxi.lt_or_lt with hlt | hlt <;> simp [hc, hlt]
        · simp [Bool.not_eq_true _ ▸ hc]
    · simp only [quick_sort]
      exact is_set_union_t _ _ setL
    · rw [struct]
      refine is_everse_list_append _ _ _ evS ?_ fun x hx => le_of_lt (boundS x hx)
      exact is_everse_list_cons_of _ _ (fun y hy => le_of_lt (boundL y hy)) evL

theorem set_constructible_eq_is_set (l : List I) :
    set_constructible l = is_set l := by
  induction l with
  | nil => rfl
  | cons i is ih => simp [set_constructible, is_set, ih]

theorem contains_to_set (l : List I) (x : I) :
    contains (to_set l) x = contains l x := by
  induction l with
  | nil => rfl
  | cons i is ih =>
    unfold to_set
    by_cases hc : contains is i = true
    · rw [if_pos hc, ih, contains_cons]
      by_cases hix : i = x
      · subst hix
        simp [hc]
      · simp [hix]
    · rw [if_neg hc, contains_prepend, ih, contains_cons]

theorem is_set_to_set (l : List I) : is_set (to_set l) = true := by
  induction l with
  | nil => rfl
  | cons i is ih =>
    unfold to_set
    split
    · exact ih
    · exact is_set_prepend _ _ ih

/- ## Claims -/

/-- Claim C1: the claim states that for duplicate-free sets A and B the
binary minus A - B contains exactly the elements of B that are not in A.
The code violates this: at A with elements 1, 3, 2 and B with elements 2, 1
the operator yields the set holding 3, and 3 is not an element of B.  This
is the very instance exercised by the main routine of the repository, which
expects the result in the opposite direction (elements of A not in B); the
underlying difference alias moreover contradicts its own documentation
comment (see claim C2).  This theorem evaluates the code at the failing
input. -/
theorem c1_operator_minus_eval :
    operator_minus [(1 : Int), 3, 2] [2, 1] = [3] ∧
      contains [(2 : Int), 1] 3 = false ∧
      contains [(1 : Int), 3, 2] 3 = true ∧
      is_set [(1 : Int), 3, 2] = true ∧ is_set [(2 : Int), 1] = true := by
  refine ⟨?_, by decide, by decide, by decide, by decide⟩
  simp [operator_minus, difference, subtract, prepend, contains]

/-- Claim C2: the claim states that T.difference with pack js yields the
set of those js elements not contained in T, which is also what the
documentation comment of the member says.  The code violates this: the
alias recurses through the other operand and swaps the roles of the two
sets at every level, so for T holding 1 and js the pack 1, 2 it yields the
empty set instead of the set holding 2.  This theorem evaluates the code at
the failing input. -/
theorem c2_difference_eval :
    difference [(1 : Int)] [1, 2] = [] ∧
      contains [(1 : Int), 2] 2 = true ∧ contains [(1 : Int)] 2 = false ∧
      is_set [(1 : Int)] = true ∧ is_set [(1 : Int), 2] = true := by
  refine ⟨?_, by decide, by decide, by decide, by decide⟩
  simp [difference, subtract, prepend, contains]

/-- Claim C3: for duplicate-free sets A and B, the union A + B contains a
value exactly when A or B contains it, and the resulting element pack again
satisfies is_set. -/
theorem c3_union_contains_is_set (A B : List I)
    (hA : is_set A = true) (hB : is_set B = true) :
    (∀ x : I, contains (union_t A B) x = (contains A x || contains B x)) ∧
      is_set (union_t A B) = true :=
  ⟨fun x => contains_union_t A B x, is_set_union_t A B hB⟩

/-- Witness for claim C3 at the sets of the spec scenario. -/
theorem c3_witness :
    is_set [(-1 : Int), 3, 4] = true ∧ is_set [(0 : Int), 3, 2] = true ∧
      contains (union_t [(-1 : Int), 3, 4] [0, 3, 2]) 2
        = (contains [(-1 : Int), 3, 4] 2 || contains [(0 : Int), 3, 2] 2) ∧
      is_set (union_t [(-1 : Int), 3, 4] [0, 3, 2]) = true :=
  ⟨by decide, by decide,
    (c3_union_contains_is_set _ _ (by decide) (by decide)).1 2,
    (c3_union_contains_is_set _ _ (by decide) (by decide)).2⟩

/-- Claim C4, counterexample: the claim predicts that the union of the set
with elements 1, 2 and the set with elements 3, 2 places the elements of
the first operand first, followed by the new element 3, giving the pack
1, 2, 3.  The code computes the pack 1, 3, 2 instead: it folds the elements
of the first operand, not of the second, via prepend, so the elements of
the second operand form the suffix. -/
theorem c4_union_order_counterexample :
    is_set [(1 : Int), 2] = true ∧ is_set [(3 : Int), 2] = true ∧
      union_t [(1 : Int), 2] [3, 2] = [1, 3, 2] ∧
      union_t [(1 : Int), 2] [3, 2] ≠ [1, 2, 3] := by
  refine ⟨by decide, by decide, by decide, by decide⟩

/-- Claim C4, amended: the union A + B is computed by folding the elements
of A (not of B) one at a time into B via prepend; structurally the result
places those elements of A that are not already present in B first, in
their original order, followed by all elements of B. -/
theorem c4_union_order_amended (A B : List I) (hA : is_set A = true) :
    (∀ (i : I) (is : List I), union_t (i :: is) B = prepend (union_t is B) i) ∧
      union_t A B = List.filter (fun a => !contains B a) A ++ B :=
  ⟨fun i is => rfl, union_t_eq_append A B hA⟩

/-- Witness for the amended claim C4. -/
theorem c4_witness :
    is_set [(1 : Int), 2] = true ∧
      union_t [(1 : Int), 2] [3, 2]
        = List.filter (fun a => !contains [(3 : Int), 2] a) [1, 2] ++ [3, 2] :=
  ⟨by decide, (c4_union_order_amended [(1 : Int), 2] [3, 2] (by decide)).2⟩

/-- Claim C5: for a duplicate-free set A, quick_sort yields a pack that
satisfies the ascending predicate is_everse_list and that equals A under
the mutual-inclusion test; and on a non-empty set the algorithm is
literally the union of the sorted smaller_than partition, the singleton
pivot (the head), and the sorted larger_than partition. -/
theorem c5_quick_sort_sorted_equals (A : List I) (hA : is_set A = true) :
    is_everse_list (quick_sort A) = true ∧
      equals (quick_sort A) A = true ∧
      ∀ (i : I) (is : List I),
        quick_sort (i :: is)
          = union_t (union_t (quick_sort (smaller_than (i :: is) i)) [i])
              (quick_sort (larger_than (i :: is) i)) := by
  obtain ⟨mem, hset, hev⟩ := quick_sort_bundle A hA
  exact ⟨hev, equals_of_contains_eq _ _ mem, fun i is => by simp [quick_sort]⟩

/-- Witness for claim C5 at the seven-element set of the spec scenario. -/
theorem c5_witness :
    is_set [(4 : Int), 1, 7, 3, 2, 6, 5] = true ∧
      is_everse_list (quick_sort [(4 : Int), 1, 7, 3, 2, 6, 5]) = true ∧
      equals (quick_sort [(4 : Int), 1, 7, 3, 2, 6, 5])
        [4, 1, 7, 3, 2, 6, 5] = true :=
  ⟨by decide, (c5_quick_sort_sorted_equals _ (by decide)).1,
    (c5_quick_sort_sorted_equals _ (by decide)).2.1⟩

/-- Claim C6: union is commutative under the order-insensitive equals test
for duplicate-free operands. -/
theorem c6_union_commutative_equals (A B : List I)
    (hA : is_set A = true) (hB : is_set B = true) :
    equals (union_t A B) (union_t B A) = true := by
  apply equals_of_contains_eq
  intro x
  rw [contains_union_t, contains_union_t, Bool.or_comm]

/-- Witness for claim C6. -/
theorem c6_witness :
    is_set [(1 : Int), 2] = true ∧ is_set [(3 : Int), 2] = true ∧
      equals (union_t [(1 : Int), 2] [3, 2]) (union_t [(3 : Int), 2] [1, 2])
        = true :=
  ⟨by decide, by decide,
    c6_union_commutative_equals _ _ (by decide) (by decide)⟩

/-- Claim C7: every set-producing operation preserves the uniqueness
invariant is_set, for duplicate-free operands. -/
theorem c7_operations_preserve_is_set (A B : List I) (j s : I)
    (hA : is_set A = true) (hB : is_set B = true) :
    is_set (prepend A j) = true ∧ is_set (append A j) = true ∧
      is_set (union_t A B) = true ∧ is_set (subtract A j) = true ∧
      is_set (difference A B) = true ∧ is_set (intersection A B) = true ∧
      is_set (smaller_than A s) = true ∧ is_set (larger_than A s) = true ∧
      is_set (quick_sort A) = true :=
  ⟨is_set_prepend A j hA, is_set_append A j hA, is_set_union_t A B hB,
    is_set_subtract A j hA, is_set_difference A B hA hB,
    is_set_intersection A B hA, is_set_smaller_than A s hA,
    is_set_larger_than A s hA, (quick_sort_bundle A hA).2.1⟩

/-- Witness for claim C7. -/
theorem c7_witness :
    is_set [(1 : Int), 3, 2] = true ∧ is_set [(2 : Int), 5] = true ∧
      (is_set (prepend [(1 : Int), 3, 2] 3) = true ∧
        is_set (append [(1 : Int), 3, 2] 3) = true ∧
        is_set (union_t [(1 : Int), 3, 2] [2, 5]) = true ∧
        is_set (subtract [(1 : Int), 3, 2] 3) = true ∧
        is_set (difference [(1 : Int), 3, 2] [2, 5]) = true ∧
        is_set (intersection [(1 : Int), 3, 2] [2, 5]) = true ∧
        is_set (smaller_than [(1 : Int), 3, 2] 2) = true ∧
        is_set (larger_than [(1 : Int), 3, 2] 2) = true ∧
        is_set (quick_sort [(1 : Int), 3, 2]) = true) :=
  ⟨by decide, by decide,
    c7_operations_preserve_is_set [(1 : Int), 3, 2] [2, 5] 3 2
      (by decide) (by decide)⟩

/-- Claim C8: the construction-time assert chain rejects exactly the packs
with a repeated value.  set_constructible models the accumulated
static_assert conditions along the inheritance chain; it coincides with the
is_set predicate, so a pack with a duplicate (such as 1, 1, 2) is rejected
before a set value can exist, a duplicate-free pack is accepted, and no
deduplication takes place (the accepted set carries the literal pack). -/
theorem c8_duplicate_construction_rejected (l : List I) :
    set_constructible l = is_set l ∧
      set_constructible [(1 : Int), 1, 2] = false ∧
      set_constructible [(1 : Int), 2] = true :=
  ⟨set_constructible_eq_is_set l, by decide, by decide⟩

/-- Claim C9: the bag-to-set reduction follows the stated rule: the empty
bag reduces to the empty set; a bag with head i and rest is reduces to the
reduction S of the rest unchanged when i occurs in the rest (the tail-most
occurrence survives), and to S with i prepended otherwise.  In consequence
the reduction holds exactly the values of the bag and is duplicate-free. -/
theorem c9_bag_to_set_rule (i : I) (is : List I) :
    to_set ([] : List I) = [] ∧
      (contains is i = true → to_set (i :: is) = to_set is) ∧
      (contains is i = false → to_set (i :: is) = prepend (to_set is) i) ∧
      (∀ x, contains (to_set (i :: is)) x = contains (i :: is) x) ∧
      is_set (to_set (i :: is)) = true :=
  ⟨rfl, fun h => by simp [to_set, h], fun h => by simp [to_set, h],
    fun x => contains_to_set _ x, is_set_to_set _⟩

/-- Witness for claim C9: one reduction step with a duplicated head and one
with a fresh head. -/
theorem c9_witness :
    to_set [(1 : Int), 1, 2] = to_set [1, 2] ∧
      to_set [(3 : Int), 1, 2] = prepend (to_set [1, 2]) 3 :=
  ⟨(c9_bag_to_set_rule 1 [1, 2]).2.1 (by decide),
    (c9_bag_to_set_rule 3 [1, 2]).2.2.1 (by decide)⟩

/-- Claim C10: the binary minus overload of the empty set returns the other
operand unchanged, structurally identical; in particular for a non-empty B
the result of subtracting from the empty set is non-empty. -/
theorem c10_empty_minus (B : List I) (hB : is_set B = true) :
    operator_minus ([] : List I) B = B ∧
      (B ≠ [] → operator_minus ([] : List I) B ≠ []) :=
  ⟨rfl, fun h => h⟩

/-- Witness for claim C10. -/
theorem c10_witness :
    is_set [(5 : Int)] = true ∧
      operator_minus ([] : List Int) [5] = [5] ∧
      operator_minus ([] : List Int) [5] ≠ [] :=
  ⟨by decide, (c10_empty_minus [5] (by decide)).1,
    (c10_empty_minus [5] (by decide)).2 (by decide)⟩

end SetArith
